import Mathlib
/-!
Shallow embedding of the qrcam frame-processing pipeline, from the sources
src/camera.rs, src/decode.rs and src/qr.rs: the pixel converter
`record_img`, the colour conversion `yuv_to_rgb` with its `clamp` helper,
the single-slot mailbox realised as a mutex around an `Option`, one
iteration of the background decode worker of qr.rs, and the shutdown
protocol of the handler.

Modelling conventions:
* `u8` and `u32` values are carried on `Nat`; the index arithmetic of
  `record_img` (`row * stride + x_reverse * 4`) stays far below `2^32` for
  any frame a camera delivers, so no wrap-around is modelled.
* `f32` arithmetic inside `yuv_to_rgb` is modelled by exact rational
  arithmetic over the same formulas, and `f32::round` (round half away
  from zero) by `fround` below.
* the fallible parts (slice indexing, the barcode engine call, mutex
  acquisition) are modelled with `Option` / `Except` / an explicit
  lock-outcome flag.
-/

/-! ### The mailbox primitive

Each mailbox in camera.rs / decode.rs / qr.rs is an
`Arc<Mutex<Option<T>>>`.  `mtake` models the destructive read
`img.take()` performed under a successfully acquired lock, returning the
taken value and the slot contents afterwards; `mwrite` models the write
path, which unconditionally replaces the slot.  `take_locked` and
`write_locked` add the lock outcome: the sources reach the slot through
`lock().ok().and_then(...)` respectively `if let Ok(..) = ... .lock()`,
so a poisoned lock yields `None` respectively skips the write, and the
slot is left as it was. -/

namespace QrCam
/-- Row-major image buffer, modelling `image::ImageBuffer` as used through
`RgbaImage` and `GrayImage`: `RgbaImage::new`/`GrayImage::new` return a
zero-filled buffer of the given dimensions, and `put_pixel` overwrites one
pixel in place. -/
structure Img (α : Type) where
  width : Nat
  height : Nat
  pixels : List α
deriving DecidableEq

/-- Models `RgbaImage::new` / `GrayImage::new`: a `width × height` buffer
filled with the zero pixel `d`. -/
def Img.new (w h : Nat) (d : α) : Img α :=
  ⟨w, h, List.replicate (w * h) d⟩

/-- Models `put_pixel x y p`: overwrite the pixel at column `x`, row `y`. -/
def Img.put_pixel (img : Img α) (x y : Nat) (p : α) : Img α :=
  { img with pixels := img.pixels.set (y * img.width + x) p }

/-- Read the pixel at column `x`, row `y`, with default `d` out of range. -/
def Img.get_pixel (img : Img α) (x y : Nat) (d : α) : α :=
  img.pixels.getD (y * img.width + x) d

/-- Models `Option::take` on the slot: return the content and clear it. -/
def mtake (s : Option α) : Option α × Option α := (s, none)

/-- Models the mailbox write: the slot is unconditionally replaced. -/
def mwrite (v : α) (_s : Option α) : Option α := some v

/-- Models `lock().ok().and_then(|mut x| x.take())`: on lock failure the
read produces nothing and the slot is untouched. -/
def take_locked (ok : Bool) (s : Option α) : Option α × Option α :=
  if ok then mtake s else (none, s)

/-- Models `if let Ok(mut slot) = mutex.lock() { *slot = Some(v) }`: on
lock failure the write is skipped and the slot is untouched. -/
def write_locked (ok : Bool) (v : α) (s : Option α) : Option α :=
  if ok then mwrite v s else s

/-- An RGBA pixel `(r, g, b, a)` of byte values. -/
def Rgba : Type := Nat × Nat × Nat × Nat

instance : DecidableEq Rgba := by unfold Rgba; infer_instance

/-- The zero pixel `RgbaImage::new` fills the buffer with. -/
def rgba0 : Rgba := (0, 0, 0, 0)

/-- Models `f32::round`, round half away from zero, in exact rational
arithmetic: for a nonnegative rational the floor of `q + 1/2` is
`(q + 1/2).num / (q + 1/2).den` by integer division, and a negative
argument is rounded through its negation. -/
def fround (q : ℚ) : ℤ :=
  if 0 ≤ q then (q + 1/2).num / ((q + 1/2).den : ℤ)
  else -(((-q) + 1/2).num / (((-q) + 1/2).den : ℤ))

namespace Camera

/-- Models `fn clamp(value: f32) -> u8` of camera.rs: round, clamp to
`[0, 255]`, convert to a byte. -/
def clamp (value : ℚ) : Nat :=
  (min (max (fround value) 0) 255).toNat

/-- Models `fn yuv_to_rgb(y: f32, u: f32, v: f32) -> [u8; 3]` of
camera.rs (BT.601 full-computation formulas, clamped per channel). -/
def yuv_to_rgb (y u v : ℚ) : Nat × Nat × Nat :=
  let r := y + 1.402 * (v - 128)
  let g := y - 0.344136 * (u - 128) - 0.714136 * (v - 128)
  let b := y + 1.772 * (u - 128)
  (clamp r, clamp g, clamp b)

/-- One iteration of the inner loop of `Handler::record_img` in
camera.rs, for row `row` and paired column `x`: reflect the column
(`x_reverse`), compute the byte offset, skip the pair when `idx + 3`
reaches the end of the buffer, otherwise read the four bytes in the
source order `v, y1, u, y0`, convert, and write both output pixels of
the pair.  The byte reads go through `Option` so that an out-of-bounds
slice access (a panic in Rust) would surface as `none`. -/
def pair_step (stride width : Nat) (data : List Nat) (row x : Nat)
    (imgs : Img Rgba × Img Nat) : Option (Img Rgba × Img Nat) :=
  let x_reverse := width - x - 1
  let idx := row * stride + x_reverse * 4
  if idx + 3 ≥ data.length then
    some imgs
  else do
    let v ← data[idx]?
    let y1 ← data[idx + 1]?
    let u ← data[idx + 2]?
    let y0 ← data[idx + 3]?
    let rgb0 := yuv_to_rgb (y0 : ℚ) (u : ℚ) (v : ℚ)
    let rgb1 := yuv_to_rgb (y1 : ℚ) (u : ℚ) (v : ℚ)
    let rgba_img :=
      (imgs.1.put_pixel (x * 2) row (rgb0.1, rgb0.2.1, rgb0.2.2, 255)).put_pixel
        (x * 2 + 1) row (rgb1.1, rgb1.2.1, rgb1.2.2, 255)
    let grey_img := (imgs.2.put_pixel (x * 2) row y0).put_pixel (x * 2 + 1) row y1
    some (rgba_img, grey_img)

/-- The same loop body with the byte reads by `getD`: under the guard
`idx + 3 < data.length` all four reads are in bounds, so this agrees
with `pair_step` (proved below as `pair_step_eq`). -/
def pair_stepT (stride width : Nat) (data : List Nat) (row x : Nat)
    (imgs : Img Rgba × Img Nat) : Img Rgba × Img Nat :=
  let x_reverse := width - x - 1
  let idx := row * stride + x_reverse * 4
  if idx + 3 ≥ data.length then
    imgs
  else
    let v := data.getD idx 0
    let y1 := data.getD (idx + 1) 0
    let u := data.getD (idx + 2) 0
    let y0 := data.getD (idx + 3) 0
    let rgb0 := yuv_to_rgb (y0 : ℚ) (u : ℚ) (v : ℚ)
    let rgb1 := yuv_to_rgb (y1 : ℚ) (u : ℚ) (v : ℚ)
    let rgba_img :=
      (imgs.1.put_pixel (x * 2) row (rgb0.1, rgb0.2.1, rgb0.2.2, 255)).put_pixel
        (x * 2 + 1) row (rgb1.1, rgb1.2.1, rgb1.2.2, 255)
    let grey_img := (imgs.2.put_pixel (x * 2) row y0).put_pixel (x * 2 + 1) row y1
    (rgba_img, grey_img)

/-- The pure conversion core of `Handler::record_img` in camera.rs:
`width = stride / 2`, fresh zero-filled RGBA and grey buffers of size
`width × height`, then the double loop over rows and paired columns.
The mailbox writes that follow in the source are modelled separately by
`write_locked`. -/
def record_img (stride height : Nat) (data : List Nat) : Img Rgba × Img Nat :=
  let width := stride / 2
  (List.range height).foldl
    (fun imgs row =>
      (List.range (width / 2)).foldl
        (fun imgs2 x => pair_stepT stride width data row x imgs2) imgs)
    (Img.new width height rgba0, Img.new width height 0)

/-- The conversion with every byte read checked: `none` would mean an
out-of-bounds slice access. -/
def record_img_checked (stride height : Nat) (data : List Nat) :
    Option (Img Rgba × Img Nat) :=
  let width := stride / 2
  (List.range height).foldlM
    (fun imgs row =>
      (List.range (width / 2)).foldlM
        (fun imgs2 x => pair_step stride width data row x imgs2) imgs)
    (Img.new width height rgba0, Img.new width height 0)

/-- The byte offset of the pair at row `row`, paired column `x`: the
reflected column times 4 plus the row base (lines 131-133 of camera.rs). -/
def src_idx (stride width row x : Nat) : Nat :=
  row * stride + (width - x - 1) * 4

/-- The RGBA pixel the pair at byte offset `idx` produces for the luma
byte at `idx + off` (`off = 3` for the even output column, `off = 1` for
the odd one), with the chroma pair read at `idx + 2` and `idx`. -/
def rgba_pix (data : List Nat) (idx off : Nat) : Rgba :=
  let c := yuv_to_rgb (data.getD (idx + off) 0 : ℚ) (data.getD (idx + 2) 0 : ℚ)
    (data.getD idx 0 : ℚ)
  (c.1, c.2.1, c.2.2, 255)

/-- Size bookkeeping for the pair of output buffers. -/
def Dims (w h : Nat) (S : Img Rgba × Img Nat) : Prop :=
  S.1.width = w ∧ S.2.width = w ∧ S.1.height = h ∧ S.2.height = h ∧
    S.1.pixels.length = w * h ∧ S.2.pixels.length = w * h

/-- The inner loop of `record_img` over the first `n` paired columns of
row `row`. -/
def col_fold (stride width : Nat) (data : List Nat) (row n : Nat)
    (S : Img Rgba × Img Nat) : Img Rgba × Img Nat :=
  (List.range n).foldl (fun S2 x => pair_stepT stride width data row x S2) S

/-- The outer loop of `record_img` over the first `m` rows. -/
def row_fold (stride width : Nat) (data : List Nat) (m : Nat)
    (S : Img Rgba × Img Nat) : Img Rgba × Img Nat :=
  (List.range m).foldl
    (fun S2 row => col_fold stride width data row (width / 2) S2) S

end Camera

namespace Decode

/-- Models `fn clamp(value: f32) -> u8` of decode.rs (textually the same
function as in camera.rs). -/
def clamp (value : ℚ) : Nat :=
  (min (max (fround value) 0) 255).toNat

/-- Models `fn yuv_to_rgb(y: f32, u: f32, v: f32) -> [u8; 3]` of
decode.rs. -/
def yuv_to_rgb (y u v : ℚ) : Nat × Nat × Nat :=
  let r := y + 1.402 * (v - 128)
  let g := y - 0.344136 * (u - 128) - 0.714136 * (v - 128)
  let b := y + 1.772 * (u - 128)
  (clamp r, clamp g, clamp b)

/-- One iteration of the inner loop of `Decoder::record_img` in
decode.rs, lines 76-104 (same text as camera.rs lines 129-157). -/
def pair_stepT (stride width : Nat) (data : List Nat) (row x : Nat)
    (imgs : Img Rgba × Img Nat) : Img Rgba × Img Nat :=
  let x_reverse := width - x - 1
  let idx := row * stride + x_reverse * 4
  if idx + 3 ≥ data.length then
    imgs
  else
    let v := data.getD idx 0
    let y1 := data.getD (idx + 1) 0
    let u := data.getD (idx + 2) 0
    let y0 := data.getD (idx + 3) 0
    let rgb0 := yuv_to_rgb (y0 : ℚ) (u : ℚ) (v : ℚ)
    let rgb1 := yuv_to_rgb (y1 : ℚ) (u : ℚ) (v : ℚ)
    let rgba_img :=
      (imgs.1.put_pixel (x * 2) row (rgb0.1, rgb0.2.1, rgb0.2.2, 255)).put_pixel
        (x * 2 + 1) row (rgb1.1, rgb1.2.1, rgb1.2.2, 255)
    let grey_img := (imgs.2.put_pixel (x * 2) row y0).put_pixel (x * 2 + 1) row y1
    (rgba_img, grey_img)

/-- The pure conversion core of `Decoder::record_img` in decode.rs,
lines 69-105. -/
def record_img (stride height : Nat) (data : List Nat) : Img Rgba × Img Nat :=
  let width := stride / 2
  (List.range height).foldl
    (fun imgs row =>
      (List.range (width / 2)).foldl
        (fun imgs2 x => pair_stepT stride width data row x imgs2) imgs)
    (Img.new width height rgba0, Img.new width height 0)

end Decode

namespace Qr

/-- State touched by one iteration of the `decode_qr` loop of qr.rs: the
grayscale mailbox, the results mailbox, and the stop flag. -/
structure WorkerState (β : Type) where
  grey : Option (Img Nat)
  qrcodes : Option (List β)
  stop : Bool
deriving DecidableEq

/-- One iteration of the loop in `decode_qr` (qr.rs lines 42-54), with
the barcode engine (the external zxing-cpp reader, configured once
before the loop) passed in as a function that may fail.  The source
calls `.unwrap()` on the engine result, which panics the worker thread
on `Err`; that is modelled by propagating `Except.error`.  `gOk` and
`qOk` are the two lock outcomes; the returned `Bool` is whether the
iteration observed the stop flag and breaks. -/
def decode_qr_iter (engine : Img Nat → Except Unit (List β)) (gOk qOk : Bool)
    (st : WorkerState β) : Except Unit (WorkerState β × Bool) :=
  let t := take_locked gOk st.grey
  match t.1 with
  | none => Except.ok ({ st with grey := t.2 }, st.stop)
  | some g =>
    match engine g with
    | Except.error e => Except.error e
    | Except.ok codes =>
      Except.ok
        ({ st with grey := t.2, qrcodes := write_locked qOk codes st.qrcodes },
          st.stop)

end Qr

namespace Pipeline

/-- Shared state of the whole pipeline as far as the shutdown protocol
can see it: the stop flag, whether the decode worker thread has exited,
and the three mailboxes (contents abstracted to frame identifiers). -/
structure Sys where
  stop : Bool
  workerDone : Bool
  rgba : Option Nat
  grey : Option Nat
  qr : Option Nat
deriving DecidableEq

/-- Events of an execution.  `frame n` is the capture callback invoking
`Handler::record_img`, which writes the RGBA and grey mailboxes; the
capture session is independent of `Handler::shutdown`, so nothing gates
it.  `worker` is one iteration of the `decode_qr` loop (take the grey
mailbox, publish results if a frame was present, then check the stop
flag and exit when it is set).  `setStop` is the store to the stop flag
at the start of `shutdown`; `joinRet` is `handle.join()` returning,
which can only happen once the worker thread has exited. -/
inductive Ev where
  | frame (n : Nat)
  | worker
  | setStop
  | joinRet
deriving DecidableEq

/-- Small-step semantics of one event; `none` means the event cannot
occur in that state (a disabled transition). -/
def step (s : Sys) : Ev → Option Sys
  | Ev.frame n => some { s with rgba := mwrite n s.rgba, grey := mwrite n s.grey }
  | Ev.worker =>
    if s.workerDone then none
    else
      match (mtake s.grey).1 with
      | none => some { s with grey := (mtake s.grey).2, workerDone := s.stop }
      | some g =>
        some { s with
            grey := (mtake s.grey).2,
            qr := mwrite g s.qr,
            workerDone := s.stop }
  | Ev.setStop => some { s with stop := true }
  | Ev.joinRet => if s.workerDone then some s else none

/-- Run a list of events from a state. -/
def run (s : Sys) (evs : List Ev) : Option Sys :=
  evs.foldlM step s

/-- Whether the event, taken from state `s`, writes any mailbox. -/
def writes_mailbox (s : Sys) : Ev → Bool
  | Ev.frame _ => true
  | Ev.worker => s.grey.isSome
  | _ => false

/-- No event of the list, run from `s`, writes any mailbox. -/
def no_writes (s : Sys) : List Ev → Bool
  | [] => true
  | e :: t =>
    !(writes_mailbox s e) &&
      (match step s e with
       | none => true
       | some s2 => no_writes s2 t)

/-- The initial state: pipeline running, worker alive, mailboxes empty. -/
def init : Sys := ⟨false, false, none, none, none⟩

end Pipeline

namespace Shutdown

/-- The state `Handler::shutdown` (camera.rs lines 90-95) touches: the
stop flag and the `join_handle` slot (a mutex around an `Option` of the
thread handle, abstracted to `Unit`). -/
structure HState where
  stop : Bool
  handle : Option Unit
deriving DecidableEq

/-- Models `Handler::shutdown`: store `true` to the stop flag, then
`lock().ok().and_then(take)` on the handle slot; when a handle comes
out, join it (the returned `Bool` records whether the call joined, i.e.
blocked on the worker thread).  On a failed lock or an empty slot no
join happens and the call just returns. -/
def shutdown (lockOk : Bool) (st : HState) : HState × Bool :=
  let st1 : HState := { st with stop := true }
  let t := take_locked lockOk st1.handle
  match t.1 with
  | some _ => ({ st1 with handle := t.2 }, true)
  | none => ({ st1 with handle := t.2 }, false)

end Shutdown

@[simp] theorem Img.width_put_pixel (img : Img α) (x y : Nat) (p : α) :
    (img.put_pixel x y p).width = img.width := rfl

@[simp] theorem Img.height_put_pixel (img : Img α) (x y : Nat) (p : α) :
    (img.put_pixel x y p).height = img.height := rfl

@[simp] theorem Img.length_put_pixel (img : Img α) (x y : Nat) (p : α) :
    (img.put_pixel x y p).pixels.length = img.pixels.length := by
  simp [Img.put_pixel]

@[simp] theorem Img.width_new (w h : Nat) (d : α) : (Img.new w h d).width = w := rfl

@[simp] theorem Img.height_new (w h : Nat) (d : α) : (Img.new w h d).height = h := rfl

@[simp] theorem Img.length_new (w h : Nat) (d : α) :
    (Img.new w h d).pixels.length = w * h := by
  simp [Img.new]

theorem getD_set_ne (l : List α) (i j : Nat) (v d : α) (h : i ≠ j) :
    (l.set i v).getD j d = l.getD j d := by
  simp [List.getD_eq_getElem?_getD, List.getElem?_set_ne h]

theorem getD_set_self (l : List α) (i : Nat) (v d : α) (h : i < l.length) :
    (l.set i v).getD i d = v := by
  simp [List.getD_eq_getElem?_getD, List.getElem?_set_self, h]

theorem getD_replicate (n i : Nat) (a : α) : (List.replicate n a).getD i a = a := by
  simp only [List.getD_eq_getElem?_getD, List.getElem?_replicate]
  split <;> simp

/-- Row-major flat indices agree only on equal coordinates, given in-range
columns. -/
theorem flat_index_inj {w x1 y1 x2 y2 : Nat} (h1 : x1 < w) (h2 : x2 < w)
    (h : y1 * w + x1 = y2 * w + x2) : x1 = x2 ∧ y1 = y2 := by
  have e1 : (y1 * w + x1) % w = x1 := by
    rw [Nat.add_comm, Nat.add_mul_mod_self_right]
    exact Nat.mod_eq_of_lt h1
  have e2 : (y2 * w + x2) % w = x2 := by
    rw [Nat.add_comm, Nat.add_mul_mod_self_right]
    exact Nat.mod_eq_of_lt h2
  have hx : x1 = x2 := by rw [← e1, ← e2, h]
  refine ⟨hx, ?_⟩
  subst hx
  have hw : 0 < w := Nat.lt_of_le_of_lt (Nat.zero_le _) h1
  have : y1 * w = y2 * w := by omega
  exact Nat.eq_of_mul_eq_mul_right hw this

/-- Reading back the pixel just written, at in-range coordinates of a
well-sized buffer. -/
theorem Img.get_put_self (img : Img α) (w h : Nat) (x y : Nat) (p d : α)
    (hw : img.width = w) (hlen : img.pixels.length = w * h)
    (hx : x < w) (hy : y < h) :
    (img.put_pixel x y p).get_pixel x y d = p := by
  have hidx : y * w + x < w * h := by
    calc y * w + x < y * w + w := by omega
    _ = (y + 1) * w := by ring
    _ ≤ h * w := Nat.mul_le_mul_right w hy
    _ = w * h := Nat.mul_comm h w
  simp only [Img.put_pixel, Img.get_pixel, hw]
  exact getD_set_self _ _ _ _ (by omega)

/-- A write at one position leaves every other in-range position unchanged. -/
theorem Img.get_put_other (img : Img α) (w : Nat) (x y px py : Nat) (p d : α)
    (hw : img.width = w) (hx : x < w) (hpx : px < w)
    (hne : ¬(px = x ∧ py = y)) :
    (img.put_pixel x y p).get_pixel px py d = img.get_pixel px py d := by
  simp only [Img.put_pixel, Img.get_pixel, hw]
  refine getD_set_ne _ _ _ _ _ ?_
  intro hidx
  exact hne ⟨(flat_index_inj hx hpx hidx).1.symm, (flat_index_inj hx hpx hidx).2.symm⟩

/-- A freshly created buffer reads its fill value everywhere. -/
theorem Img.get_new (w h : Nat) (x y : Nat) (d : α) :
    (Img.new w h d).get_pixel x y d = d := by
  simp [Img.new, Img.get_pixel, getD_replicate]

namespace Camera

theorem dims_new (w h : Nat) : Dims w h (Img.new w h rgba0, Img.new w h 0) := by
  refine ⟨rfl, rfl, rfl, rfl, ?_, ?_⟩ <;> simp

theorem dims_pair_step (stride w h : Nat) (data : List Nat) (row x : Nat)
    (S : Img Rgba × Img Nat) (hS : Dims w h S) :
    Dims w h (pair_stepT stride w data row x S) := by
  obtain ⟨h1, h2, h3, h4, h5, h6⟩ := hS
  simp only [pair_stepT]
  split
  · exact ⟨h1, h2, h3, h4, h5, h6⟩
  · exact ⟨by simp [h1], by simp [h2], by simp [h3], by simp [h4],
      by simp [h5], by simp [h6]⟩

theorem get_pair_step_other (stride w h : Nat) (data : List Nat)
    (row x px py : Nat) (S : Img Rgba × Img Nat) (hS : Dims w h S)
    (d1 : Rgba) (d2 : Nat) (hx : x * 2 + 1 < w) (hpx : px < w)
    (hne : ¬(py = row ∧ (px = x * 2 ∨ px = x * 2 + 1))) :
    (pair_stepT stride w data row x S).1.get_pixel px py d1 =
        S.1.get_pixel px py d1 ∧
      (pair_stepT stride w data row x S).2.get_pixel px py d2 =
        S.2.get_pixel px py d2 := by
  obtain ⟨h1, h2, _, _, _, _⟩ := hS
  simp only [pair_stepT]
  split
  · exact ⟨rfl, rfl⟩
  · constructor
    · rw [Img.get_put_other _ w _ _ _ _ _ _ (by simp [h1]) (by omega) hpx
        (by tauto)]
      exact Img.get_put_other _ w _ _ _ _ _ _ h1 (by omega) hpx (by tauto)
    · rw [Img.get_put_other _ w _ _ _ _ _ _ (by simp [h2]) (by omega) hpx
        (by tauto)]
      exact Img.get_put_other _ w _ _ _ _ _ _ h2 (by omega) hpx (by tauto)

theorem get_pair_step_self (stride w h : Nat) (data : List Nat)
    (row x : Nat) (S : Img Rgba × Img Nat) (hS : Dims w h S)
    (hx : x < w / 2) (hrow : row < h)
    (hin : src_idx stride w row x + 3 < data.length) :
    (pair_stepT stride w data row x S).2.get_pixel (x * 2) row 0 =
        data.getD (src_idx stride w row x + 3) 0 ∧
      (pair_stepT stride w data row x S).2.get_pixel (x * 2 + 1) row 0 =
        data.getD (src_idx stride w row x + 1) 0 ∧
      (pair_stepT stride w data row x S).1.get_pixel (x * 2) row rgba0 =
        rgba_pix data (src_idx stride w row x) 3 ∧
      (pair_stepT stride w data row x S).1.get_pixel (x * 2 + 1) row rgba0 =
        rgba_pix data (src_idx stride w row x) 1 := by
  obtain ⟨h1, h2, _, _, h5, h6⟩ := hS
  have hguard : ¬(row * stride + (w - x - 1) * 4 + 3 ≥ data.length) := by
    simpa [src_idx] using hin
  simp only [pair_stepT, if_neg hguard]
  have hsrc : row * stride + (w - x - 1) * 4 = src_idx stride w row x := rfl
  refine ⟨?_, ?_, ?_, ?_⟩
  · rw [Img.get_put_other _ w _ _ _ _ _ _ (by simp [h2]) (by omega) (by omega)
      (by omega)]
    rw [Img.get_put_self _ w h _ _ _ _ h2 h6 (by omega) hrow, hsrc]
  · rw [Img.get_put_self _ w h _ _ _ _ (by simp [h2]) (by simp [h6]) (by omega)
      hrow, hsrc]
  · rw [Img.get_put_other _ w _ _ _ _ _ _ (by simp [h1]) (by omega) (by omega)
      (by simp)]
    rw [Img.get_put_self _ w h _ _ _ _ h1 h5 (by omega) hrow, hsrc]
    simp [rgba_pix]
  · rw [Img.get_put_self _ w h _ _ _ _ (by simp [h1]) (by simp [h5]) (by omega)
      hrow, hsrc]
    simp [rgba_pix]

theorem record_img_eq_row_fold (stride height : Nat) (data : List Nat) :
    record_img stride height data =
      row_fold stride (stride / 2) data height
        (Img.new (stride / 2) height rgba0, Img.new (stride / 2) height 0) := rfl

theorem col_fold_succ (stride w : Nat) (data : List Nat) (row n : Nat)
    (S : Img Rgba × Img Nat) :
    col_fold stride w data row (n + 1) S =
      pair_stepT stride w data row n (col_fold stride w data row n S) := by
  unfold col_fold
  rw [List.range_succ, List.foldl_append]
  rfl

theorem row_fold_succ (stride w : Nat) (data : List Nat) (m : Nat)
    (S : Img Rgba × Img Nat) :
    row_fold stride w data (m + 1) S =
      col_fold stride w data m (w / 2) (row_fold stride w data m S) := by
  unfold row_fold
  rw [List.range_succ, List.foldl_append]
  rfl

theorem dims_col_fold (stride w h : Nat) (data : List Nat) (row n : Nat)
    (S : Img Rgba × Img Nat) (hS : Dims w h S) :
    Dims w h (col_fold stride w data row n S) := by
  induction n with
  | zero => exact hS
  | succ k ih => rw [col_fold_succ]; exact dims_pair_step _ _ _ _ _ _ _ ih

theorem dims_row_fold (stride w h : Nat) (data : List Nat) (m : Nat)
    (S : Img Rgba × Img Nat) (hS : Dims w h S) :
    Dims w h (row_fold stride w data m S) := by
  induction m with
  | zero => exact hS
  | succ k ih => rw [row_fold_succ]; exact dims_col_fold _ _ _ _ _ _ _ ih

theorem get_col_fold_other (stride w h : Nat) (data : List Nat)
    (row n px py : Nat) (S : Img Rgba × Img Nat) (hS : Dims w h S)
    (d1 : Rgba) (d2 : Nat) (hn : n ≤ w / 2) (hpx : px < w)
    (hside : py ≠ row ∨ ∀ x', x' < n → px ≠ x' * 2 ∧ px ≠ x' * 2 + 1) :
    (col_fold stride w data row n S).1.get_pixel px py d1 =
        S.1.get_pixel px py d1 ∧
      (col_fold stride w data row n S).2.get_pixel px py d2 =
        S.2.get_pixel px py d2 := by
  induction n with
  | zero => exact ⟨rfl, rfl⟩
  | succ k ih =>
    rw [col_fold_succ]
    have hk : Dims w h (col_fold stride w data row k S) :=
      dims_col_fold stride w h data row k S hS
    have hstep := get_pair_step_other stride w h data row k px py
      (col_fold stride w data row k S) hk d1 d2 (by omega) hpx
      (by rcases hside with hl | hr
          · tauto
          · have := hr k (by omega)
            tauto)
    have hrest := ih (by omega)
      (by rcases hside with hl | hr
          · exact Or.inl hl
          · exact Or.inr fun x' hx' => hr x' (by omega))
    exact ⟨hstep.1.trans hrest.1, hstep.2.trans hrest.2⟩

theorem get_col_fold_at (stride w h : Nat) (data : List Nat) (row n x : Nat)
    (S : Img Rgba × Img Nat) (hS : Dims w h S) (hx : x < n) (hn : n ≤ w / 2)
    (hrow : row < h) :
    ((col_fold stride w data row n S).2.get_pixel (x * 2) row 0 =
      if src_idx stride w row x + 3 < data.length then
        data.getD (src_idx stride w row x + 3) 0
      else S.2.get_pixel (x * 2) row 0) ∧
    ((col_fold stride w data row n S).2.get_pixel (x * 2 + 1) row 0 =
      if src_idx stride w row x + 3 < data.length then
        data.getD (src_idx stride w row x + 1) 0
      else S.2.get_pixel (x * 2 + 1) row 0) ∧
    ((col_fold stride w data row n S).1.get_pixel (x * 2) row rgba0 =
      if src_idx stride w row x + 3 < data.length then
        rgba_pix data (src_idx stride w row x) 3
      else S.1.get_pixel (x * 2) row rgba0) ∧
    ((col_fold stride w data row n S).1.get_pixel (x * 2 + 1) row rgba0 =
      if src_idx stride w row x + 3 < data.length then
        rgba_pix data (src_idx stride w row x) 1
      else S.1.get_pixel (x * 2 + 1) row rgba0) := by
  revert hn hx
  induction n with
  | zero => intro hn hx; omega
  | succ k ih =>
    intro hn hx
    rw [col_fold_succ]
    have hk : Dims w h (col_fold stride w data row k S) :=
      dims_col_fold stride w h data row k S hS
    by_cases hxk : x = k
    · subst hxk
      by_cases hin : src_idx stride w row x + 3 < data.length
      · obtain ⟨g1, g2, g3, g4⟩ := get_pair_step_self stride w h data row x
          (col_fold stride w data row x S) hk (by omega) hrow hin
        rw [if_pos hin, if_pos hin, if_pos hin, if_pos hin]
        exact ⟨g1, g2, g3, g4⟩
      · have hguard : row * stride + (w - x - 1) * 4 + 3 ≥ data.length := by
          simp only [src_idx] at hin; omega
        have hskip : pair_stepT stride w data row x
            (col_fold stride w data row x S) = col_fold stride w data row x S := by
          simp only [pair_stepT, if_pos hguard]
        rw [hskip, if_neg hin, if_neg hin, if_neg hin, if_neg hin]
        have hother0 := get_col_fold_other stride w h data row x (x * 2) row S hS
          rgba0 0 (by omega) (by omega) (Or.inr fun x' hx' => by omega)
        have hother1 := get_col_fold_other stride w h data row x (x * 2 + 1) row
          S hS rgba0 0 (by omega) (by omega) (Or.inr fun x' hx' => by omega)
        exact ⟨hother0.2, hother1.2, hother0.1, hother1.1⟩
    · have hxlt : x < k := by omega
      have hstep0 := get_pair_step_other stride w h data row k (x * 2) row
        (col_fold stride w data row k S) hk rgba0 0 (by omega) (by omega)
        (by omega)
      have hstep1 := get_pair_step_other stride w h data row k (x * 2 + 1) row
        (col_fold stride w data row k S) hk rgba0 0 (by omega) (by omega)
        (by omega)
      obtain ⟨i1, i2, i3, i4⟩ := ih (by omega) (by omega)
      exact ⟨hstep0.2.trans i1, hstep1.2.trans i2, hstep0.1.trans i3,
        hstep1.1.trans i4⟩

theorem get_row_fold_other (stride w h : Nat) (data : List Nat)
    (m px py : Nat) (S : Img Rgba × Img Nat) (hS : Dims w h S)
    (d1 : Rgba) (d2 : Nat) (hpx : px < w) (hm : ∀ r', r' < m → py ≠ r') :
    (row_fold stride w data m S).1.get_pixel px py d1 =
        S.1.get_pixel px py d1 ∧
      (row_fold stride w data m S).2.get_pixel px py d2 =
        S.2.get_pixel px py d2 := by
  induction m with
  | zero => exact ⟨rfl, rfl⟩
  | succ k ih =>
    rw [row_fold_succ]
    have hk : Dims w h (row_fold stride w data k S) :=
      dims_row_fold stride w h data k S hS
    have hstep := get_col_fold_other stride w h data k (w / 2) px py
      (row_fold stride w data k S) hk d1 d2 (by omega) hpx
      (Or.inl (hm k (by omega)))
    have hrest := ih fun r' hr' => hm r' (by omega)
    exact ⟨hstep.1.trans hrest.1, hstep.2.trans hrest.2⟩

theorem get_row_fold_at (stride w h : Nat) (data : List Nat) (m row x : Nat)
    (S : Img Rgba × Img Nat) (hS : Dims w h S) (hrow : row < m)
    (hrh : row < h) (hx : x < w / 2) :
    ((row_fold stride w data m S).2.get_pixel (x * 2) row 0 =
      if src_idx stride w row x + 3 < data.length then
        data.getD (src_idx stride w row x + 3) 0
      else S.2.get_pixel (x * 2) row 0) ∧
    ((row_fold stride w data m S).2.get_pixel (x * 2 + 1) row 0 =
      if src_idx stride w row x + 3 < data.length then
        data.getD (src_idx stride w row x + 1) 0
      else S.2.get_pixel (x * 2 + 1) row 0) ∧
    ((row_fold stride w data m S).1.get_pixel (x * 2) row rgba0 =
      if src_idx stride w row x + 3 < data.length then
        rgba_pix data (src_idx stride w row x) 3
      else S.1.get_pixel (x * 2) row rgba0) ∧
    ((row_fold stride w data m S).1.get_pixel (x * 2 + 1) row rgba0 =
      if src_idx stride w row x + 3 < data.length then
        rgba_pix data (src_idx stride w row x) 1
      else S.1.get_pixel (x * 2 + 1) row rgba0) := by
  induction m with
  | zero => omega
  | succ k ih =>
    rw [row_fold_succ]
    have hk : Dims w h (row_fold stride w data k S) :=
      dims_row_fold stride w h data k S hS
    by_cases hrk : row = k
    · subst hrk
      obtain ⟨a1, a2, a3, a4⟩ := get_col_fold_at stride w h data row (w / 2) x
        (row_fold stride w data row S) hk hx (by omega) hrh
      have hu0 := get_row_fold_other stride w h data row (x * 2) row S hS
        rgba0 0 (by omega) (fun r' hr' => by omega)
      have hu1 := get_row_fold_other stride w h data row (x * 2 + 1) row S hS
        rgba0 0 (by omega) (fun r' hr' => by omega)
      rw [a1, a2, a3, a4, hu0.1, hu0.2, hu1.1, hu1.2]
      exact ⟨rfl, rfl, rfl, rfl⟩
    · have hrlt : row < k := by omega
      have hstep0 := get_col_fold_other stride w h data k (w / 2) (x * 2) row
        (row_fold stride w data k S) hk rgba0 0 (by omega) (by omega)
        (Or.inl (by omega))
      have hstep1 := get_col_fold_other stride w h data k (w / 2) (x * 2 + 1)
        row (row_fold stride w data k S) hk rgba0 0 (by omega) (by omega)
        (Or.inl (by omega))
      obtain ⟨i1, i2, i3, i4⟩ := ih hrlt
      exact ⟨hstep0.2.trans i1, hstep1.2.trans i2, hstep0.1.trans i3,
        hstep1.1.trans i4⟩

/-- Pixel-level characterisation of `record_img`: writing `w` for
`stride / 2` and `idx` for the reflected byte offset of the pair at
`(row, x)`, the pair's two grey pixels carry the bytes at `idx + 3` and
`idx + 1`, its two RGBA pixels the converted colours, and a pair whose
offset fails the bounds guard leaves its four output pixels at the zero
fill of the fresh buffers. -/
theorem record_img_get (stride height : Nat) (data : List Nat) (row x : Nat)
    (hrow : row < height) (hx : x < stride / 2 / 2) :
    ((record_img stride height data).2.get_pixel (x * 2) row 0 =
      if src_idx stride (stride / 2) row x + 3 < data.length then
        data.getD (src_idx stride (stride / 2) row x + 3) 0
      else 0) ∧
    ((record_img stride height data).2.get_pixel (x * 2 + 1) row 0 =
      if src_idx stride (stride / 2) row x + 3 < data.length then
        data.getD (src_idx stride (stride / 2) row x + 1) 0
      else 0) ∧
    ((record_img stride height data).1.get_pixel (x * 2) row rgba0 =
      if src_idx stride (stride / 2) row x + 3 < data.length then
        rgba_pix data (src_idx stride (stride / 2) row x) 3
      else rgba0) ∧
    ((record_img stride height data).1.get_pixel (x * 2 + 1) row rgba0 =
      if src_idx stride (stride / 2) row x + 3 < data.length then
        rgba_pix data (src_idx stride (stride / 2) row x) 1
      else rgba0) := by
  rw [record_img_eq_row_fold]
  obtain ⟨a1, a2, a3, a4⟩ := get_row_fold_at stride (stride / 2) height data
    height row x
    (Img.new (stride / 2) height rgba0, Img.new (stride / 2) height 0)
    (dims_new _ _) hrow hrow hx
  rw [a1, a2, a3, a4]
  refine ⟨?_, ?_, ?_, ?_⟩ <;> simp [Img.get_new]

theorem getD_eq_get (l : List Nat) (i : Nat) (h : i < l.length) :
    l.getD i 0 = l[i] := by
  simp [List.getD_eq_getElem?_getD, List.getElem?_eq_getElem h]

/-- Under the bounds guard every byte read of the loop body is in
bounds, so the checked body never fails and agrees with the `getD`
body. -/
theorem pair_step_eq (stride w : Nat) (data : List Nat) (row x : Nat)
    (S : Img Rgba × Img Nat) :
    pair_step stride w data row x S = some (pair_stepT stride w data row x S) := by
  simp only [pair_step, pair_stepT]
  split
  · rfl
  · rename_i hguard
    have h3 : row * stride + (w - x - 1) * 4 + 3 < data.length := by omega
    have h2 : row * stride + (w - x - 1) * 4 + 2 < data.length := by omega
    have h1 : row * stride + (w - x - 1) * 4 + 1 < data.length := by omega
    have h0 : row * stride + (w - x - 1) * 4 < data.length := by omega
    rw [List.getElem?_eq_getElem h0, List.getElem?_eq_getElem h1,
      List.getElem?_eq_getElem h2, List.getElem?_eq_getElem h3]
    rw [getD_eq_get _ _ h0, getD_eq_get _ _ h1, getD_eq_get _ _ h2,
      getD_eq_get _ _ h3]
    rfl

theorem foldlM_option_eq {σ α : Type} (f : σ → α → Option σ) (g : σ → α → σ)
    (h : ∀ s a, f s a = some (g s a)) :
    ∀ (l : List α) (s : σ), l.foldlM f s = some (l.foldl g s) := by
  intro l
  induction l with
  | nil => intro s; rfl
  | cons a t ih => intro s; simp [List.foldlM_cons, h, ih, List.foldl_cons]

/-- The conversion loop never reads out of bounds: the fully checked run
succeeds on every input and computes exactly `record_img`. -/
theorem record_img_checked_eq (stride height : Nat) (data : List Nat) :
    record_img_checked stride height data = some (record_img stride height data) := by
  unfold record_img_checked record_img
  exact foldlM_option_eq _ _
    (fun s row => foldlM_option_eq _ _
      (fun s2 x => pair_step_eq stride (stride / 2) data row x s2)
      (List.range (stride / 2 / 2)) s)
    (List.range height) _

/-- Output dimensions of `record_img`: both buffers are created as
`stride / 2` by `height` and never resized. -/
theorem record_img_dims (stride height : Nat) (data : List Nat) :
    (record_img stride height data).1.width = stride / 2 ∧
      (record_img stride height data).1.height = height ∧
      (record_img stride height data).2.width = stride / 2 ∧
      (record_img stride height data).2.height = height := by
  rw [record_img_eq_row_fold]
  have hd := dims_row_fold stride (stride / 2) height data height
    (Img.new (stride / 2) height rgba0, Img.new (stride / 2) height 0)
    (dims_new _ _)
  exact ⟨hd.1, hd.2.2.1, hd.2.1, hd.2.2.2.1⟩

end Camera

namespace Pipeline

theorem step_frame (s : Sys) (n : Nat) :
    step s (Ev.frame n) =
      some { s with rgba := mwrite n s.rgba, grey := mwrite n s.grey } := rfl

theorem step_setStop (s : Sys) :
    step s Ev.setStop = some { s with stop := true } := by
  simp [step]

theorem step_joinRet (s : Sys) :
    step s Ev.joinRet = if s.workerDone then some s else none := by
  simp [step]

theorem step_worker_done (s : Sys) (hd : s.workerDone = true) :
    step s Ev.worker = none := by
  simp [step, hd]

theorem run_append (s : Sys) (l1 l2 : List Ev) :
    run s (l1 ++ l2) = (run s l1).bind (fun s2 => run s2 l2) := by
  induction l1 generalizing s with
  | nil => rfl
  | cons e t ih =>
    simp only [run, List.cons_append, List.foldlM_cons]
    cases step s e with
    | none => rfl
    | some s2 => simp [run, ih s2]

/-- `workerDone` is never reset by any event. -/
theorem workerDone_mono (s s2 : Sys) (e : Ev) (h : step s e = some s2)
    (hd : s.workerDone = true) : s2.workerDone = true := by
  cases e with
  | frame n => rw [step_frame] at h; cases h; exact hd
  | worker => rw [step_worker_done s hd] at h; cases h
  | setStop => rw [step_setStop] at h; cases h; exact hd
  | joinRet => rw [step_joinRet, if_pos hd] at h; cases h; exact hd

/-- Once the worker has exited, no `worker` event can ever run again,
and the results mailbox never changes again. -/
theorem no_worker_after_done (post : List Ev) :
    ∀ (s1 s2 : Sys), s1.workerDone = true → run s1 post = some s2 →
      Ev.worker ∉ post ∧ s2.qr = s1.qr := by
  induction post with
  | nil =>
    intro s1 s2 _ h
    simp only [run, List.foldlM_nil] at h
    cases h
    exact ⟨by simp, rfl⟩
  | cons e t ih =>
    intro s1 s2 hd h
    simp only [run, List.foldlM_cons] at h
    cases hstep : step s1 e with
    | none => rw [hstep] at h; cases h
    | some smid =>
      rw [hstep] at h
      have hmid : smid.workerDone = true := workerDone_mono s1 smid e hstep hd
      have hrest := ih smid s2 hmid h
      have hne : e ≠ Ev.worker := by
        intro he
        subst he
        rw [step_worker_done s1 hd] at hstep
        cases hstep
      have hqr : smid.qr = s1.qr := by
        cases e with
        | frame n => rw [step_frame] at hstep; cases hstep; rfl
        | worker => exact absurd rfl hne
        | setStop => rw [step_setStop] at hstep; cases hstep; rfl
        | joinRet => rw [step_joinRet, if_pos hd] at hstep; cases hstep; rfl
      refine ⟨?_, hrest.2.trans hqr⟩
      intro hmem
      rcases List.mem_cons.mp hmem with h1 | h2
      · exact hne h1.symm
      · exact hrest.1 h2

/-- A successful `joinRet` requires and preserves an exited worker. -/
theorem joinRet_done (s s2 : Sys) (h : step s Ev.joinRet = some s2) :
    s.workerDone = true ∧ s2 = s := by
  by_cases hd : s.workerDone = true
  · rw [step_joinRet, if_pos hd] at h
    cases h
    exact ⟨hd, rfl⟩
  · rw [step_joinRet, if_neg hd] at h
    cases h

end Pipeline

theorem foldl_mwrite_last {α : Type} :
    ∀ (l : List α) (s : Option α), l ≠ [] →
      l.foldl (fun s2 v2 => mwrite v2 s2) s = l.getLast? := by
  intro l
  induction l with
  | nil => intro s h; exact absurd rfl h
  | cons a t ih =>
    intro s _
    rw [List.foldl_cons]
    cases t with
    | nil => simp [mwrite]
    | cons b t2 =>
      rw [ih _ (by simp)]
      simp [List.getLast?_cons_cons]

/-- C4: on every mailbox, a write followed by a take yields the written
value and clears the slot; a take on an empty slot yields nothing; a
take right after a successful take yields nothing; and after a sequence
of writes with no intervening takes, a take yields exactly the last
written value. -/
theorem c4_mailbox_semantics (α : Type) (v : α) (s : Option α) (l : List α)
    (hl : l ≠ []) :
    mtake (mwrite v s) = (some v, none) ∧
      mtake (none : Option α) = (none, none) ∧
      mtake ((mtake s).2) = (none, none) ∧
      (mtake (l.foldl (fun s2 v2 => mwrite v2 s2) s)).1 = some (l.getLast hl) := by
  refine ⟨rfl, rfl, rfl, ?_⟩
  rw [foldl_mwrite_last l s hl]
  simp [mtake, List.getLast?_eq_getLast l hl]

theorem c4_mailbox_semantics_witness :
    mtake (mwrite 5 (none : Option Nat)) = (some 5, none) ∧
      mtake (none : Option Nat) = (none, none) ∧
      mtake ((mtake (none : Option Nat)).2) = (none, none) ∧
      (mtake ([1, 2, 3].foldl (fun s2 v2 => mwrite v2 s2)
        (none : Option Nat))).1 = some 3 :=
  c4_mailbox_semantics Nat 5 none [1, 2, 3] (by decide)

/-- C8: on every shared mailbox operation, a failed lock acquisition is
treated as no value available: the destructive read returns nothing and
leaves the slot, the write is skipped, and in the decode worker a failed
grey-mailbox lock just ends the iteration normally (no engine call, no
panic, loop continues). -/
theorem c8_lock_failure_no_value (α : Type) (s : Option α) (v : α)
    (engine : Img Nat → Except Unit (List Nat)) (st : Qr.WorkerState Nat) :
    take_locked false s = (none, s) ∧ write_locked false v s = s ∧
      Qr.decode_qr_iter engine false false st = Except.ok (st, st.stop) :=
  ⟨rfl, rfl, rfl⟩

/-- C2: evaluation of the decode-worker loop body at a failing engine:
with a grayscale frame present and the engine returning an error, the
iteration propagates the error (the source calls `.unwrap()`, so the
worker thread panics and the loop terminates) instead of the claimed
empty-batch-and-continue behaviour. -/
theorem c2_engine_failure_panics :
    Qr.decode_qr_iter (fun _ => (Except.error () : Except Unit (List Nat)))
      true true ⟨some (Img.new 1 1 0), none, false⟩ = Except.error () := rfl

/-- C3 counterexample: the code's conversion sends `Y=235, U=128, V=128`
to exactly `(235, 235, 235)`, which is not within 1 of `(255, 255, 255)`. -/
theorem c3_counterexample :
    Camera.yuv_to_rgb 235 128 128 = (235, 235, 235) ∧
      ¬(254 ≤ (Camera.yuv_to_rgb 235 128 128).1) := by
  unfold Camera.yuv_to_rgb Camera.clamp fround
  norm_num
  decide

/-- C3 amended: the conversion is the identity on the achromatic test
vectors, sending `Y=235, U=128, V=128` to exactly `(235, 235, 235)` and
`Y=16, U=128, V=128` to exactly `(16, 16, 16)` (no limited-range
expansion is performed). -/
theorem c3_conversion_vectors :
    Camera.yuv_to_rgb 235 128 128 = (235, 235, 235) ∧
      Camera.yuv_to_rgb 16 128 128 = (16, 16, 16) := by
  unfold Camera.yuv_to_rgb Camera.clamp fround
  norm_num
  decide

/-- C9: the two pipeline implementations are behaviourally equivalent:
`camera::Handler::record_img` and `decode::Decoder::record_img` produce
identical RGBA and grayscale images on every input, and the two
`yuv_to_rgb` copies produce identical clamped triples. -/
theorem c9_camera_decode_equivalent :
    (∀ (stride height : Nat) (data : List Nat),
      Camera.record_img stride height data = Decode.record_img stride height data) ∧
      ∀ y u v : ℚ, Camera.yuv_to_rgb y u v = Decode.yuv_to_rgb y u v :=
  ⟨fun _ _ _ => rfl, fun _ _ _ => rfl⟩

/-- C10: a second `shutdown` after a first one is a no-op: the first
call empties the handle slot, so the second call joins nothing (returns
without blocking) and leaves the state exactly as the first call left
it. -/
theorem c10_shutdown_idempotent (st : Shutdown.HState) :
    (Shutdown.shutdown true st).1.handle = none ∧
      (Shutdown.shutdown true (Shutdown.shutdown true st).1).2 = false ∧
      (Shutdown.shutdown true (Shutdown.shutdown true st).1).1 =
        (Shutdown.shutdown true st).1 := by
  cases st with
  | mk stop handle =>
    cases handle <;> simp [Shutdown.shutdown, take_locked, mtake]

/-- C1 counterexample: on the plane `stride = 4`, `height = 2` with
bytes `[0, 1, 2, 3, 10, 11, 12, 13]`, the pair at row 0, paired column
0 has reflected byte offset 4, and the converter puts the byte at
offset `+ 3` (value 13) into the even grey pixel — not the byte at
offset `+ 1` (value 11) that the claimed `[U, Y0, V, Y1]` order with
mirroring would put there, and not the byte at the unmirrored claimed
offset `0 * 4 + 1` (value 1) either. -/
theorem c1_counterexample :
    (Camera.record_img 4 2 [0, 1, 2, 3, 10, 11, 12, 13]).2.get_pixel 0 0 0 =
        [0, 1, 2, 3, 10, 11, 12, 13].getD (Camera.src_idx 4 2 0 0 + 3) 0 ∧
      (Camera.record_img 4 2 [0, 1, 2, 3, 10, 11, 12, 13]).2.get_pixel 0 0 0 ≠
        [0, 1, 2, 3, 10, 11, 12, 13].getD (Camera.src_idx 4 2 0 0 + 1) 0 ∧
      (Camera.record_img 4 2 [0, 1, 2, 3, 10, 11, 12, 13]).2.get_pixel 0 0 0 ≠
        [0, 1, 2, 3, 10, 11, 12, 13].getD (0 * 4 + 1) 0 := by
  decide

/-- C1 amended: every in-bounds pixel pair is sourced from the 4
consecutive bytes at the unconditionally reflected column offset
`row * stride + (width - 1 - x) * 4`, read in the order
`[V, Y1, U, Y0]`: the even output pixel takes the byte at offset `+ 3`
as its luma, the odd one the byte at offset `+ 1`, both sharing the
chroma bytes at offsets `+ 2` and `+ 0`; mirroring is not a toggle and
the byte-order change accompanies it. -/
theorem c1_byte_order (stride height : Nat) (data : List Nat) (row x : Nat)
    (hrow : row < height) (hx : x < stride / 2 / 2)
    (hin : Camera.src_idx stride (stride / 2) row x + 3 < data.length) :
    (Camera.record_img stride height data).2.get_pixel (x * 2) row 0 =
        data.getD (Camera.src_idx stride (stride / 2) row x + 3) 0 ∧
      (Camera.record_img stride height data).2.get_pixel (x * 2 + 1) row 0 =
        data.getD (Camera.src_idx stride (stride / 2) row x + 1) 0 ∧
      (Camera.record_img stride height data).1.get_pixel (x * 2) row rgba0 =
        Camera.rgba_pix data (Camera.src_idx stride (stride / 2) row x) 3 ∧
      (Camera.record_img stride height data).1.get_pixel (x * 2 + 1) row rgba0 =
        Camera.rgba_pix data (Camera.src_idx stride (stride / 2) row x) 1 := by
  obtain ⟨a1, a2, a3, a4⟩ := Camera.record_img_get stride height data row x hrow hx
  rw [a1, a2, a3, a4, if_pos hin, if_pos hin, if_pos hin, if_pos hin]
  exact ⟨rfl, rfl, rfl, rfl⟩

theorem c1_byte_order_witness :
    (Camera.record_img 4 2 [0, 1, 2, 3, 10, 11, 12, 13]).2.get_pixel 0 0 0 =
        [0, 1, 2, 3, 10, 11, 12, 13].getD (Camera.src_idx 4 2 0 0 + 3) 0 ∧
      (Camera.record_img 4 2 [0, 1, 2, 3, 10, 11, 12, 13]).2.get_pixel 1 0 0 =
        [0, 1, 2, 3, 10, 11, 12, 13].getD (Camera.src_idx 4 2 0 0 + 1) 0 :=
  ⟨(c1_byte_order 4 2 [0, 1, 2, 3, 10, 11, 12, 13] 0 0 (by decide) (by decide)
      (by decide)).1,
    (c1_byte_order 4 2 [0, 1, 2, 3, 10, 11, 12, 13] 0 0 (by decide) (by decide)
      (by decide)).2.1⟩

/-- C6: for every stride, height and byte buffer of any length, the
conversion succeeds and produces an RGBA image and a grey image whose
widths are `stride / 2` and whose heights are the input height; in
particular a buffer shorter than `stride * height` never yields a
truncated-size output. -/
theorem c6_output_dims (stride height : Nat) (data : List Nat)
    (_hs : 0 < stride) (_hh : 0 < height) :
    Camera.record_img_checked stride height data =
        some (Camera.record_img stride height data) ∧
      (Camera.record_img stride height data).1.width = stride / 2 ∧
      (Camera.record_img stride height data).1.height = height ∧
      (Camera.record_img stride height data).2.width = stride / 2 ∧
      (Camera.record_img stride height data).2.height = height :=
  ⟨Camera.record_img_checked_eq stride height data,
    Camera.record_img_dims stride height data⟩

theorem c6_output_dims_witness :
    Camera.record_img_checked 4 2 [] = some (Camera.record_img 4 2 []) ∧
      (Camera.record_img 4 2 []).1.width = 2 ∧
      (Camera.record_img 4 2 []).1.height = 2 ∧
      (Camera.record_img 4 2 []).2.width = 2 ∧
      (Camera.record_img 4 2 []).2.height = 2 :=
  c6_output_dims 4 2 [] (by decide) (by decide)

/-- C7: conversion never reads out of bounds and never errors — the
fully checked run succeeds on every stride, height and buffer — and a
pair whose byte offset `+ 3` would reach past the buffer is skipped,
leaving its four output pixels at the zero defaults, while the
remaining pairs are still converted. -/
theorem c7_oob_pairs_skipped (stride height : Nat) (data : List Nat) :
    Camera.record_img_checked stride height data =
        some (Camera.record_img stride height data) ∧
      ∀ row x, row < height → x < stride / 2 / 2 →
        data.length ≤ Camera.src_idx stride (stride / 2) row x + 3 →
        (Camera.record_img stride height data).2.get_pixel (x * 2) row 0 = 0 ∧
        (Camera.record_img stride height data).2.get_pixel (x * 2 + 1) row 0 = 0 ∧
        (Camera.record_img stride height data).1.get_pixel (x * 2) row rgba0 =
          rgba0 ∧
        (Camera.record_img stride height data).1.get_pixel (x * 2 + 1) row rgba0 =
          rgba0 := by
  refine ⟨Camera.record_img_checked_eq stride height data, ?_⟩
  intro row x hrow hx hskip
  obtain ⟨a1, a2, a3, a4⟩ := Camera.record_img_get stride height data row x hrow hx
  rw [a1, a2, a3, a4, if_neg (by omega), if_neg (by omega), if_neg (by omega),
    if_neg (by omega)]
  exact ⟨rfl, rfl, rfl, rfl⟩

theorem c7_oob_pairs_skipped_witness :
    Camera.record_img_checked 4 1 [] = some (Camera.record_img 4 1 []) ∧
      ((Camera.record_img 4 1 []).2.get_pixel 0 0 0 = 0 ∧
        (Camera.record_img 4 1 []).2.get_pixel 1 0 0 = 0 ∧
        (Camera.record_img 4 1 []).1.get_pixel 0 0 rgba0 = rgba0 ∧
        (Camera.record_img 4 1 []).1.get_pixel 1 0 rgba0 = rgba0) :=
  ⟨(c7_oob_pairs_skipped 4 1 []).1,
    (c7_oob_pairs_skipped 4 1 []).2 0 0 (by decide) (by decide) (by decide)⟩

/-- C5 counterexample: a valid execution in which `shutdown` has
returned (stop flag set, worker iteration observed it and exited, join
returned) and afterwards the capture callback delivers a frame, writing
the RGBA and grey mailboxes — so it is not true that after `shutdown()`
returns no further writes to any mailbox ever occur. -/
theorem c5_counterexample :
    ¬(∀ (pre post : List Pipeline.Ev) (s1 : Pipeline.Sys),
        Pipeline.run Pipeline.init (pre ++ [Pipeline.Ev.joinRet]) = some s1 →
        (Pipeline.run s1 post).isSome = true →
        Pipeline.no_writes s1 post = true) := by
  intro h
  have h2 := h [Pipeline.Ev.setStop, Pipeline.Ev.worker] [Pipeline.Ev.frame 0]
    ⟨true, true, none, none, none⟩ (by decide) (by decide)
  exact absurd h2 (by decide)

/-- C5 amended: `shutdown` sets the stop flag and blocks until the
decode worker has observed it and exited — `joinRet` only fires once
`workerDone` holds — and after it returns, no worker iteration (hence no
engine call) ever runs again and the results mailbox never changes
again; writes to the RGBA and grey mailboxes by the still-running
capture callback are not prevented. -/
theorem c5_shutdown_worker_quiescent (pre post : List Pipeline.Ev)
    (s1 s2 : Pipeline.Sys)
    (h1 : Pipeline.run Pipeline.init (pre ++ [Pipeline.Ev.joinRet]) = some s1)
    (h2 : Pipeline.run s1 post = some s2) :
    s1.workerDone = true ∧ Pipeline.Ev.worker ∉ post ∧ s2.qr = s1.qr := by
  rw [Pipeline.run_append] at h1
  cases h0 : Pipeline.run Pipeline.init pre with
  | none => rw [h0] at h1; cases h1
  | some s0 =>
    rw [h0] at h1
    have hstep : Pipeline.step s0 Pipeline.Ev.joinRet = some s1 := by
      cases hj : Pipeline.step s0 Pipeline.Ev.joinRet with
      | none => simp [Pipeline.run, List.foldlM, hj] at h1
      | some s3 => simp [Pipeline.run, List.foldlM, hj] at h1; rw [h1]
    obtain ⟨hdone, hs1⟩ := Pipeline.joinRet_done s0 s1 hstep
    have hd1 : s1.workerDone = true := by rw [hs1]; exact hdone
    have hrest := Pipeline.no_worker_after_done post s1 s2 hd1 h2
    exact ⟨hd1, hrest.1, hrest.2⟩

theorem c5_shutdown_worker_quiescent_witness :
    (⟨true, true, none, none, none⟩ : Pipeline.Sys).workerDone = true ∧
      Pipeline.Ev.worker ∉ [Pipeline.Ev.frame 0] ∧
      (⟨true, true, some 0, some 0, none⟩ : Pipeline.Sys).qr =
        (⟨true, true, none, none, none⟩ : Pipeline.Sys).qr :=
  c5_shutdown_worker_quiescent [Pipeline.Ev.setStop, Pipeline.Ev.worker]
    [Pipeline.Ev.frame 0] ⟨true, true, none, none, none⟩
    ⟨true, true, some 0, some 0, none⟩ (by decide) (by decide)

end QrCam
